import Mathlib

/-!
Shallow embedding of the offline-transactions outbox/executor core
(`packages/offline-transactions/src`): the `KeyScheduler`, the
`OutboxManager` over a key/value storage adapter, the
`TransactionExecutor` error/success paths, and the waiter registry of
`OfflineExecutor`.  Time (`Date.now()`) is passed explicitly as `now`,
storage is an association list from keys to structured blobs, and the
mutation functions are pure functions from call parameters to a result.
-/

/-- One serialized mutation entry: `globalKey`, `type`, payloads and
`collectionId` (payloads are opaque, modelled as strings). -/
structure Mutation where
  globalKey : String
  type : String
  modified : String
  original : String
  collectionId : String
  deriving DecidableEq, Repr

/-- Serialized error record stored in `lastError`. -/
structure SerializedError where
  name : String
  message : String
  stack : Option String
  deriving DecidableEq, Repr

/-- A thrown JavaScript error value: its observable fields plus whether it
is an instance of the `NonRetriableError` class. -/
structure ErrV where
  name : String
  message : String
  stack : Option String
  nonRetriable : Bool
  deriving DecidableEq, Repr

/-- The `NonRetriableError` constructor from `types.ts`: sets `name` to
the class name. -/
def nonRetriableError (message : String) : ErrV :=
  ⟨"NonRetriableError", message, none, true⟩

/-- A JavaScript value, as far as the model observes it: `undefined` or
an opaque payload. -/
inductive JsValue where
  | undefined : JsValue
  | payload (s : String) : JsValue
  deriving DecidableEq, Repr

/-- In-memory `OfflineTransaction` (`types.ts`): `createdAt` and
`nextAttemptAt` are epoch milliseconds, `metadata` an optional opaque map.
The `version` field is the constant `1` and is carried by the envelope. -/
structure Tx where
  id : String
  mutationFnName : String
  mutations : List Mutation
  keys : List String
  idempotencyKey : String
  createdAt : Nat
  retryCount : Nat
  nextAttemptAt : Nat
  lastError : Option SerializedError
  metadata : Option (List (String × String))
  deriving DecidableEq, Repr

/-- A stored blob: either a version-tagged transaction envelope or bytes
that do not parse as an envelope. -/
inductive Blob where
  | env (version : Nat) (tx : Tx) : Blob
  | junk : Blob
  deriving DecidableEq, Repr

/-- Storage adapter state: association list from string keys to blobs
(`keys()` enumerates the first components). -/
def Storage := List (String × Blob)

/-- The settlement of a deferred promise. -/
inductive Settlement where
  | resolved (v : JsValue) : Settlement
  | rejected (e : ErrV) : Settlement
  deriving DecidableEq, Repr

/-- Observable callback events emitted by the executor. -/
inductive Event where
  | unknownFn (name : String) (tx : Tx) : Event
  | invoked (name : String) (txId : String) : Event
  deriving DecidableEq, Repr

/-- Combined state: the `KeyScheduler` fields (`pending`, `isRunning`),
the storage behind the `OutboxManager`, the waiter registry of
`OfflineExecutor` (`counter` supplies fresh promise tokens, `table` maps
transaction ids to the token of their registered deferred, `settled`
logs settlements), and the emitted callback events. -/
structure ExecState where
  pending : List Tx
  isRunning : Bool
  storage : List (String × Blob)
  counter : Nat
  table : List (String × Nat)
  settled : List (Nat × Settlement)
  events : List Event

/-- Parameters handed to a mutation function:
`transaction: ⟨id, mutations, metadata ?? ∅⟩` plus the idempotency key. -/
structure MutationParams where
  txId : String
  mutations : List Mutation
  metadata : List (String × String)
  idempotencyKey : String
  deriving DecidableEq, Repr

/-- Retry policy interface as the executor consumes it. -/
structure RetryPolicyM where
  shouldRetry : ErrV → Nat → Bool
  calculateDelay : Nat → Nat

/-- Executor configuration slice used by the modelled code paths. -/
structure Config where
  mutationFns : String → Option (MutationParams → Except ErrV JsValue)
  hasOnUnknownMutationFn : Bool
  collections : List String
  beforeRetry : Option (List Tx → List Tx)

/-- Modelled from the spec: `DefaultRetryPolicy.shouldRetry` (the file
`retry/RetryPolicy.ts` is not under `src/`; §4.D): false iff the error is
`NonRetriable` or the retry count has reached `maxRetries`. -/
def shouldRetryDefault (maxRetries : Nat) (e : ErrV) (retryCount : Nat) : Bool :=
  !e.nonRetriable && retryCount < maxRetries

/-- Modelled from the spec: `DefaultRetryPolicy.calculateDelay` with
jitter disabled (§4.D): `min 60000 (1000 * 2 ^ retryCount)`. -/
def calculateDelayDefault (retryCount : Nat) : Nat :=
  min 60000 (1000 * 2 ^ retryCount)

/-- The policy the executor constructs: `new DefaultRetryPolicy(10, jitter)`,
here with jitter off so the delay is deterministic. -/
def defaultRetryPolicy : RetryPolicyM :=
  ⟨shouldRetryDefault 10, calculateDelayDefault⟩

/-- String prefix test on the character data (JavaScript
`key.startsWith(...)`): structurally computable. -/
def strStartsWith (s p : String) : Bool :=
  p.data.isPrefixOf s.data

/-- Stable insertion into a createdAt-sorted list: the new element goes
after every element whose `createdAt` is less than or equal. -/
def insertByCreatedAt (x : Tx) : List Tx → List Tx
  | [] => [x]
  | y :: ys =>
      if y.createdAt ≤ x.createdAt then y :: insertByCreatedAt x ys
      else x :: y :: ys

/-- Sort by `createdAt` ascending, as the comparator
`(a, b) => a.createdAt.getTime() - b.createdAt.getTime()` does
(JavaScript `sort` is stable; so is this left-fold insertion sort). -/
def sortByCreatedAt (l : List Tx) : List Tx :=
  l.foldl (fun acc x => insertByCreatedAt x acc) []

/-- Remove the first element whose `id` matches
(`findIndex` + `splice(index, 1)` in `KeyScheduler.removeTransaction`). -/
def removeFirstById (id : String) : List Tx → List Tx
  | [] => []
  | t :: ts => if t.id = id then ts else t :: removeFirstById id ts

/-- Replace the first element whose `id` matches the update's
(`findIndex` + index assignment); no change when the id is absent. -/
def replaceFirstById (u : Tx) : List Tx → List Tx
  | [] => []
  | t :: ts => if t.id = u.id then u :: ts else t :: replaceFirstById u ts

/-- First-match association-list lookup (JavaScript `Map.get`). -/
def tableLookup (id : String) : List (String × Nat) → Option Nat
  | [] => none
  | e :: es => if e.1 = id then some e.2 else tableLookup id es

/-- Remove the entry of a key (JavaScript `Map.delete`; first match). -/
def tableDelete (id : String) : List (String × Nat) → List (String × Nat)
  | [] => []
  | e :: es => if e.1 = id then es else e :: tableDelete id es

/-- Storage `get`: first-match lookup. -/
def kvGet (k : String) : List (String × Blob) → Option Blob
  | [] => none
  | e :: es => if e.1 = k then some e.2 else kvGet k es

/-- Storage `set`: overwrite in place or append. -/
def kvSet (k : String) (v : Blob) : List (String × Blob) → List (String × Blob)
  | [] => [(k, v)]
  | e :: es => if e.1 = k then (k, v) :: es else e :: kvSet k v es

/-- Storage `delete`: drop every entry of the key. -/
def kvDelete (k : String) (st : List (String × Blob)) : List (String × Blob) :=
  st.filter (fun e => e.1 ≠ k)

/-- `OutboxManager.getStorageKey`: the `tx:` prefix plus the id. -/
def txKey (id : String) : String :=
  "tx:" ++ id

/-- Modelled from the spec: `TransactionSerializer.serialize` (the file
`TransactionSerializer.ts` is not under `src/`; §4.A): the stored value is
the envelope of the transaction with `version: 1`. -/
def serialize (tx : Tx) : Blob :=
  Blob.env 1 tx

/-- Modelled from the spec: `TransactionSerializer.deserialize` (§4.A):
JSON-parse (a `junk` blob fails), validate the envelope version, and fail
recoverably when a `collectionId` is missing from the registry. -/
def deserialize (colls : List String) : Blob → Option Tx
  | Blob.junk => none
  | Blob.env v tx =>
      if v = 1 ∧ tx.mutations.all (fun m => colls.contains m.collectionId) then
        some tx
      else
        none

/-- `OutboxManager.add`: serialize and write under the `tx:`-prefixed key
(overwrite semantics). -/
def outboxAdd (tx : Tx) (st : List (String × Blob)) : List (String × Blob) :=
  kvSet (txKey tx.id) (serialize tx) st

/-- `OutboxManager.get`: read through; a missing key or a deserialize
failure yields `none`. -/
def outboxGet (colls : List String) (id : String) (st : List (String × Blob)) :
    Option Tx :=
  match kvGet (txKey id) st with
  | none => none
  | some b => deserialize colls b

/-- `OutboxManager.getAll`: enumerate the keys with the `tx:` prefix, read
each, skip deserialize failures, sort ascending by `createdAt`. -/
def outboxGetAll (colls : List String) (st : List (String × Blob)) : List Tx :=
  sortByCreatedAt
    (((st.map (fun e => e.1)).filter (fun k => strStartsWith k "tx:")).filterMap
      (fun k => (kvGet k st).bind (deserialize colls)))

/-- `OutboxManager.remove`: delete the `tx:`-prefixed key. -/
def outboxRemove (id : String) (st : List (String × Blob)) :
    List (String × Blob) :=
  kvDelete (txKey id) st

/-- `OutboxManager.removeMany`: remove each id. -/
def outboxRemoveMany (ids : List String) (st : List (String × Blob)) :
    List (String × Blob) :=
  ids.foldl (fun acc id => outboxRemove id acc) st

/-- `OutboxManager.update` as the executor calls it (a whole updated
record, so the spread merge equals the update): read, fail with `none`
(`NotFound`) when absent, else re-`add`. -/
def outboxUpdate (colls : List String) (id : String) (updated : Tx)
    (st : List (String × Blob)) : Option (List (String × Blob)) :=
  match outboxGet colls id st with
  | none => none
  | some _ => some (outboxAdd updated st)

/-- `KeyScheduler.schedule`: push, then re-sort by creation time. -/
def schedule (tx : Tx) (s : ExecState) : ExecState :=
  { s with pending := sortByCreatedAt (s.pending ++ [tx]) }

/-- `KeyScheduler.getNextBatch`: ignores the requested concurrency; empty
when running or nothing pending; else the first pending transaction with
`now ≥ nextAttemptAt`, as a singleton. -/
def getNextBatch (now : Nat) (_maxConcurrency : Nat) (s : ExecState) :
    List Tx :=
  if s.isRunning || s.pending.isEmpty then
    []
  else
    match s.pending.find? (fun tx => tx.nextAttemptAt ≤ now) with
    | some t => [t]
    | none => []

/-- `KeyScheduler.markStarted`. -/
def markStarted (s : ExecState) : ExecState :=
  { s with isRunning := true }

/-- `KeyScheduler.markCompleted`: remove the transaction (first matching
id) from pending, clear the running flag. -/
def markCompleted (tx : Tx) (s : ExecState) : ExecState :=
  { s with pending := removeFirstById tx.id s.pending, isRunning := false }

/-- `KeyScheduler.markFailed`: clear the running flag only. -/
def markFailed (s : ExecState) : ExecState :=
  { s with isRunning := false }

/-- `KeyScheduler.updateTransaction`: replace the matching id in place and
re-sort; no-op when the id is absent. -/
def updateTransaction (u : Tx) (s : ExecState) : ExecState :=
  if s.pending.any (fun t => t.id = u.id) then
    { s with pending := sortByCreatedAt (replaceFirstById u s.pending) }
  else
    s

/-- `KeyScheduler.updateTransactions`: replace each matching id in place,
then re-sort once. -/
def updateTransactions (us : List Tx) (s : ExecState) : ExecState :=
  { s with
    pending := sortByCreatedAt (us.foldl (fun p u => replaceFirstById u p) s.pending) }

/-- `KeyScheduler.getPendingCount`. -/
def getPendingCount (s : ExecState) : Nat :=
  s.pending.length

/-- `KeyScheduler.getRunningCount`. -/
def getRunningCount (s : ExecState) : Nat :=
  if s.isRunning then 1 else 0

/-- `OfflineExecutor.waitForTransactionCompletion`: return the registered
deferred's promise token when one exists, else create a fresh deferred,
store it and return its token. -/
def waitFor (id : String) (s : ExecState) : Nat × ExecState :=
  match tableLookup id s.table with
  | some tok => (tok, s)
  | none =>
      (s.counter,
        { s with table := s.table ++ [(id, s.counter)], counter := s.counter + 1 })

/-- `OfflineExecutor.resolveTransaction`: when a deferred is registered
for the id, resolve it (logged in `settled`) and delete the entry; else a
no-op. -/
def resolveTransaction (id : String) (v : JsValue) (s : ExecState) : ExecState :=
  match tableLookup id s.table with
  | some tok =>
      { s with settled := s.settled ++ [(tok, Settlement.resolved v)],
               table := tableDelete id s.table }
  | none => s

/-- `OfflineExecutor.rejectTransaction`: the rejecting counterpart. -/
def rejectTransaction (id : String) (e : ErrV) (s : ExecState) : ExecState :=
  match tableLookup id s.table with
  | some tok =>
      { s with settled := s.settled ++ [(tok, Settlement.rejected e)],
               table := tableDelete id s.table }
  | none => s

/-- `TransactionExecutor.handleError`: when the policy retries, build the
updated record (`retryCount+1`, `nextAttemptAt = now + delay`, serialized
`lastError`), mark failed, replace it in the scheduler, persist via
`outbox.update` (a `NotFound` leaves storage unchanged and propagates);
when it does not, mark completed, remove from the outbox and reject the
waiter with the error. -/
def handleError (policy : RetryPolicyM) (colls : List String) (tx : Tx)
    (e : ErrV) (now : Nat) (s : ExecState) : ExecState :=
  if policy.shouldRetry e tx.retryCount then
    let delay := policy.calculateDelay tx.retryCount
    let u : Tx :=
      { tx with
        retryCount := tx.retryCount + 1,
        nextAttemptAt := now + delay,
        lastError := some ⟨e.name, e.message, e.stack⟩ }
    let s2 := updateTransaction u (markFailed s)
    match outboxUpdate colls tx.id u s2.storage with
    | some st => { s2 with storage := st }
    | none => s2
  else
    let s1 := markCompleted tx s
    rejectTransaction tx.id e { s1 with storage := outboxRemove tx.id s1.storage }

/-- `TransactionExecutor.executeTransaction` together with
`runMutationFn`: mark started; resolve the mutation function by name — if
absent, fire `onUnknownMutationFn` (when configured) and fail with a
`NonRetriable` error; otherwise invoke it.  `runMutationFn` is typed
`Promise<void>` and does not return the awaited value, so on success the
waiter is resolved with `undefined` after the scheduler completion and the
outbox removal; on failure `handleError` runs. -/
def executeTransaction (cfg : Config) (policy : RetryPolicyM) (tx : Tx)
    (now : Nat) (s : ExecState) : ExecState :=
  let s0 := markStarted s
  match cfg.mutationFns tx.mutationFnName with
  | none =>
      let s1 :=
        if cfg.hasOnUnknownMutationFn then
          { s0 with events := s0.events ++ [Event.unknownFn tx.mutationFnName tx] }
        else s0
      handleError policy cfg.collections tx
        (nonRetriableError ("Unknown mutation function: " ++ tx.mutationFnName))
        now s1
  | some fn =>
      let params : MutationParams :=
        ⟨tx.id, tx.mutations, tx.metadata.getD [], tx.idempotencyKey⟩
      let s1 :=
        { s0 with events := s0.events ++ [Event.invoked tx.mutationFnName tx.id] }
      match fn params with
      | Except.ok _ =>
          let s2 := markCompleted tx s1
          resolveTransaction tx.id JsValue.undefined
            { s2 with storage := outboxRemove tx.id s2.storage }
      | Except.error e => handleError policy cfg.collections tx e now s1

/-- `TransactionExecutor.resetRetryDelays`: snapshot the pending list, set
every `nextAttemptAt` to now, hand the snapshot to
`scheduler.updateTransactions`; nothing is persisted. -/
def resetRetryDelays (now : Nat) (s : ExecState) : ExecState :=
  updateTransactions (s.pending.map (fun t => { t with nextAttemptAt := now })) s

/-- Application of the caller-supplied `beforeRetry` filter: identity when
unsupplied. -/
def applyBeforeRetry (cfg : Config) (l : List Tx) : List Tx :=
  match cfg.beforeRetry with
  | some f => f l
  | none => l

/-- `TransactionExecutor.loadPendingTransactions`: fetch `outbox.getAll`,
apply `beforeRetry` (identity when unsupplied), schedule the filtered
list, reset retry delays, then remove from the outbox every fetched
transaction whose id the filtered list lacks. -/
def loadPendingTransactions (cfg : Config) (now : Nat) (s : ExecState) :
    ExecState :=
  let transactions := outboxGetAll cfg.collections s.storage
  let filtered := applyBeforeRetry cfg transactions
  let s1 := filtered.foldl (fun acc tx => schedule tx acc) s
  let s2 := resetRetryDelays now s1
  let removed :=
    transactions.filter (fun tx => !(filtered.any (fun f => f.id = tx.id)))
  if removed.isEmpty then s2
  else { s2 with storage := outboxRemoveMany (removed.map (fun tx => tx.id)) s2.storage }

/-- Concrete transactions for the C2 counterexample: the earlier-created
one is not yet ready at time 50, the later-created one is. -/
def c2early : Tx :=
  ⟨"a", "m", [⟨"k1", "insert", "mo", "or", "c1"⟩], ["k1"], "ik1", 1, 0, 100,
    none, none⟩

def c2late : Tx :=
  ⟨"b", "m", [⟨"k2", "insert", "mo", "or", "c1"⟩], ["k2"], "ik2", 2, 0, 0,
    none, none⟩

def c2state : ExecState :=
  ⟨[c2early, c2late], false, [], 0, [], [], []⟩

/-- Concrete transaction, configuration and state for C1: a registered
waiter (token 0), a persisted envelope, one pending transaction, and a
mutation function that returns the non-`undefined` value `payload "ok1"`. -/
def c1tx : Tx :=
  ⟨"t1", "m", [⟨"k1", "insert", "mo", "or", "c1"⟩], ["k1"], "ik", 5, 0, 0,
    none, none⟩

def c1cfg : Config :=
  ⟨fun n => if n = "m" then some (fun _ => Except.ok (JsValue.payload "ok1"))
    else none,
   false, ["c1"], none⟩

def c1state : ExecState :=
  ⟨[c1tx], false, [(txKey "t1", serialize c1tx)], 1, [("t1", 0)], [], []⟩

/-- Transaction and adversarial storage state for the C8 counterexample:
two distinct `tx:`-prefixed keys both hold an envelope whose id is `b`. -/
def c8tx : Tx :=
  ⟨"b", "m", [⟨"k", "insert", "x", "y", "c1"⟩], ["k"], "i", 3, 0, 0, none, none⟩

def c8storage : List (String × Blob) :=
  [("tx:a", serialize c8tx), ("tx:b", serialize c8tx)]

/-- Well-formed single-envelope transaction for the C8 witness. -/
def c8wtx : Tx :=
  ⟨"a", "m", [⟨"k", "insert", "x", "y", "c1"⟩], ["k"], "i", 3, 0, 0, none, none⟩

/-- Concrete scheduler state for the C10 witness: two pending
transactions with stale backoff and one persisted envelope. -/
def c10state : ExecState :=
  ⟨[⟨"a", "m", [⟨"k", "insert", "x", "y", "c1"⟩], ["k"], "i", 1, 2, 5000,
      none, none⟩,
    ⟨"b", "m", [⟨"k2", "insert", "x", "y", "c1"⟩], ["k2"], "j", 2, 1, 7000,
      none, none⟩],
   false,
   [(txKey "a", serialize ⟨"a", "m", [⟨"k", "insert", "x", "y", "c1"⟩], ["k"],
      "i", 1, 2, 5000, none, none⟩)],
   0, [], [], []⟩

/-- The updated transaction record the executor builds on a retriable
failure: `retryCount+1`, `nextAttemptAt = now + delay`, serialized
`lastError`; every other field is kept. -/
def retryUpdate (policy : RetryPolicyM) (tx : Tx) (e : ErrV) (now : Nat) : Tx :=
  { tx with
    retryCount := tx.retryCount + 1,
    nextAttemptAt := now + policy.calculateDelay tx.retryCount,
    lastError := some ⟨e.name, e.message, e.stack⟩ }

/-- Concrete transaction and state for the C3 witness. -/
def c3tx : Tx :=
  ⟨"t1", "m", [⟨"k1", "insert", "mo", "or", "c1"⟩], ["k1"], "ik", 5, 0, 0,
    none, none⟩

def c3state : ExecState :=
  ⟨[c3tx], true, [(txKey "t1", serialize c3tx)], 1, [("t1", 0)], [], []⟩

/-- Concrete transaction and state for the C4 witness. -/
def c4tx : Tx :=
  ⟨"t1", "m", [⟨"k1", "insert", "mo", "or", "c1"⟩], ["k1"], "ik", 5, 0, 0,
    none, none⟩

def c4state : ExecState :=
  ⟨[c4tx], true, [(txKey "t1", serialize c4tx)], 1, [("t1", 0)], [], []⟩

/-- Concrete transaction, empty-registry configuration and state for the
C7 witness. -/
def c7tx : Tx :=
  ⟨"t1", "unknown", [⟨"k1", "insert", "mo", "or", "c1"⟩], ["k1"], "ik", 5, 0,
    0, none, none⟩

def c7cfg : Config :=
  ⟨fun _ => none, true, ["c1"], none⟩

def c7state : ExecState :=
  ⟨[c7tx], false, [(txKey "t1", serialize c7tx)], 1, [("t1", 0)], [], []⟩

/-- Concrete transaction, drop-everything configuration and storage state
for the C6 witness. -/
def c6wtx : Tx :=
  ⟨"a", "m", [⟨"k", "insert", "x", "y", "c1"⟩], ["k"], "i", 3, 0, 777, none,
    none⟩

def c6wcfg : Config :=
  ⟨fun _ => none, false, ["c1"], some (fun _ => [])⟩

def c6wstate : ExecState :=
  ⟨[], false, [(txKey "a", serialize c6wtx)], 0, [], [], []⟩

/-! ### Helper lemmas -/

theorem insertByCreatedAt_perm (x : Tx) (l : List Tx) :
    (insertByCreatedAt x l).Perm (x :: l) := by
  induction l with
  | nil => exact List.Perm.refl _
  | cons y ys ih =>
      by_cases h : y.createdAt ≤ x.createdAt
      · rw [insertByCreatedAt, if_pos h]
        exact (ih.cons y).trans (List.Perm.swap x y ys)
      · rw [insertByCreatedAt, if_neg h]

theorem foldl_insertByCreatedAt_perm :
    ∀ (l acc : List Tx),
      (l.foldl (fun a x => insertByCreatedAt x a) acc).Perm (acc ++ l) := by
  intro l
  induction l with
  | nil =>
      intro acc
      simp
  | cons x ts ih =>
      intro acc
      have h1 := ih (insertByCreatedAt x acc)
      have h2 : (insertByCreatedAt x acc ++ ts).Perm ((x :: acc) ++ ts) :=
        (insertByCreatedAt_perm x acc).append_right ts
      refine h1.trans (h2.trans ?_)
      simpa using List.perm_middle.symm

theorem sortByCreatedAt_perm (l : List Tx) : (sortByCreatedAt l).Perm l := by
  simpa using foldl_insertByCreatedAt_perm l []

theorem mem_sortByCreatedAt {t : Tx} {l : List Tx} :
    t ∈ sortByCreatedAt l ↔ t ∈ l :=
  (sortByCreatedAt_perm l).mem_iff

theorem insertByCreatedAt_sorted {x : Tx} {l : List Tx}
    (h : l.Pairwise (fun a b => a.createdAt ≤ b.createdAt)) :
    (insertByCreatedAt x l).Pairwise (fun a b => a.createdAt ≤ b.createdAt) := by
  induction l with
  | nil =>
      simp [insertByCreatedAt]
  | cons y ys ih =>
      rcases List.pairwise_cons.mp h with ⟨hy, hys⟩
      by_cases hle : y.createdAt ≤ x.createdAt
      · rw [insertByCreatedAt, if_pos hle]
        refine List.pairwise_cons.mpr ⟨?_, ih hys⟩
        intro z hz
        have hz2 := (insertByCreatedAt_perm x ys).mem_iff.mp hz
        rcases List.mem_cons.mp hz2 with rfl | hz3
        · exact hle
        · exact hy z hz3
      · rw [insertByCreatedAt, if_neg hle]
        push_neg at hle
        refine List.pairwise_cons.mpr ⟨?_, h⟩
        intro z hz
        rcases List.mem_cons.mp hz with rfl | hz3
        · exact le_of_lt hle
        · exact le_trans (le_of_lt hle) (hy z hz3)

theorem foldl_insertByCreatedAt_sorted :
    ∀ (l acc : List Tx),
      acc.Pairwise (fun a b => a.createdAt ≤ b.createdAt) →
      (l.foldl (fun a x => insertByCreatedAt x a) acc).Pairwise
        (fun a b => a.createdAt ≤ b.createdAt) := by
  intro l
  induction l with
  | nil =>
      intro acc h
      exact h
  | cons x ts ih =>
      intro acc h
      exact ih (insertByCreatedAt x acc) (insertByCreatedAt_sorted h)

theorem sortByCreatedAt_sorted (l : List Tx) :
    (sortByCreatedAt l).Pairwise (fun a b => a.createdAt ≤ b.createdAt) :=
  foldl_insertByCreatedAt_sorted l [] (List.Pairwise.nil)

theorem kvGet_mem {k : String} {b : Blob} {st : List (String × Blob)}
    (h : kvGet k st = some b) : (k, b) ∈ st := by
  induction st with
  | nil => simp [kvGet] at h
  | cons e es ih =>
      by_cases hk : e.1 = k
      · rw [kvGet, if_pos hk] at h
        injection h with h
        subst h
        exact List.mem_cons.mpr (Or.inl (by rw [← hk]))
      · rw [kvGet, if_neg hk] at h
        exact List.mem_cons_of_mem _ (ih h)

theorem kvGet_kvSet_self (k : String) (v : Blob) (st : List (String × Blob)) :
    kvGet k (kvSet k v st) = some v := by
  induction st with
  | nil => simp [kvSet, kvGet]
  | cons e es ih =>
      by_cases hk : e.1 = k
      · simp [kvSet, kvGet, hk]
      · simp [kvSet, kvGet, hk, ih]

theorem kvGet_kvSet_other {k k' : String} (hne : k ≠ k') (v : Blob)
    (st : List (String × Blob)) : kvGet k (kvSet k' v st) = kvGet k st := by
  induction st with
  | nil => simp [kvSet, kvGet, Ne.symm hne]
  | cons e es ih =>
      by_cases hk : e.1 = k'
      · have he : e.1 ≠ k := by rw [hk]; exact Ne.symm hne
        simp [kvSet, kvGet, hk, Ne.symm hne, he]
      · by_cases hk2 : e.1 = k
        · simp [kvSet, kvGet, hk, hk2, hne]
        · simp [kvSet, kvGet, hk, hk2, ih]

theorem kvGet_kvDelete_self (k : String) (st : List (String × Blob)) :
    kvGet k (kvDelete k st) = none := by
  induction st with
  | nil => rfl
  | cons e es ih =>
      by_cases hk : e.1 = k
      · have hrw : kvDelete k (e :: es) = kvDelete k es := by
          simp [kvDelete, List.filter_cons, hk]
        rw [hrw]
        exact ih
      · have hrw : kvDelete k (e :: es) = e :: kvDelete k es := by
          simp [kvDelete, List.filter_cons, hk]
        rw [hrw, kvGet, if_neg hk]
        exact ih

theorem kvGet_kvDelete_other {k k' : String} (hne : k ≠ k')
    (st : List (String × Blob)) : kvGet k (kvDelete k' st) = kvGet k st := by
  induction st with
  | nil => rfl
  | cons e es ih =>
      by_cases hk : e.1 = k'
      · have hrw : kvDelete k' (e :: es) = kvDelete k' es := by
          simp [kvDelete, List.filter_cons, hk]
        have he : e.1 ≠ k := by rw [hk]; exact Ne.symm hne
        rw [hrw, ih]
        simp only [kvGet, if_neg he]
      · have hrw : kvDelete k' (e :: es) = e :: kvDelete k' es := by
          simp [kvDelete, List.filter_cons, hk]
        rw [hrw]
        by_cases hk2 : e.1 = k
        · simp only [kvGet, if_pos hk2]
        · simp only [kvGet, if_neg hk2]
          exact ih

theorem txKey_inj {a b : String} (h : txKey a = txKey b) : a = b := by
  have h2 := congrArg String.data h
  simp only [txKey, String.data_append] at h2
  exact String.ext (List.append_cancel_left h2)

theorem kvGet_outboxRemoveMany_not_mem {k : String} {ids : List String}
    (hk : ∀ i ∈ ids, k ≠ txKey i) (st : List (String × Blob)) :
    kvGet k (outboxRemoveMany ids st) = kvGet k st := by
  induction ids generalizing st with
  | nil => rfl
  | cons i is ih =>
      calc kvGet k (outboxRemoveMany (i :: is) st)
          = kvGet k (outboxRemove i st) :=
            ih (fun j hj => hk j (List.mem_cons_of_mem _ hj)) _
        _ = kvGet k st := kvGet_kvDelete_other (hk i (List.mem_cons_self _ _)) st

theorem kvGet_outboxRemoveMany_mem {id : String} {ids : List String}
    (hmem : id ∈ ids) (st : List (String × Blob)) :
    kvGet (txKey id) (outboxRemoveMany ids st) = none := by
  induction ids generalizing st with
  | nil => cases hmem
  | cons i is ih =>
      rcases List.mem_cons.mp hmem with rfl | hmem2
      · by_cases hin : id ∈ is
        · exact ih hin _
        · have hstep : outboxRemoveMany (id :: is) st =
              outboxRemoveMany is (outboxRemove id st) := rfl
          rw [hstep,
            kvGet_outboxRemoveMany_not_mem
              (fun j hj heq => hin (by rw [txKey_inj heq]; exact hj))]
          exact kvGet_kvDelete_self _ _
      · exact ih hmem2 _

theorem tableLookup_none_of_not_mem {id : String} {tb : List (String × Nat)}
    (h : id ∉ tb.map (fun e => e.1)) : tableLookup id tb = none := by
  induction tb with
  | nil => rfl
  | cons e es ih =>
      simp only [List.map_cons, List.mem_cons, not_or] at h
      rw [tableLookup, if_neg (fun he => h.1 he.symm)]
      exact ih h.2

theorem tableLookup_tableDelete_self {id : String} {tb : List (String × Nat)}
    (hnd : (tb.map (fun e => e.1)).Nodup) :
    tableLookup id (tableDelete id tb) = none := by
  induction tb with
  | nil => rfl
  | cons e es ih =>
      simp only [List.map_cons, List.nodup_cons] at hnd
      by_cases hk : e.1 = id
      · rw [tableDelete, if_pos hk]
        apply tableLookup_none_of_not_mem
        rw [← hk]
        exact hnd.1
      · rw [tableDelete, if_neg hk, tableLookup, if_neg hk]
        exact ih hnd.2

theorem tableDelete_keys_sublist (id : String) (tb : List (String × Nat)) :
    ((tableDelete id tb).map (fun e => e.1)).Sublist (tb.map (fun e => e.1)) := by
  induction tb with
  | nil => exact List.Sublist.refl _
  | cons e es ih =>
      by_cases hk : e.1 = id
      · rw [tableDelete, if_pos hk, List.map_cons]
        exact List.sublist_cons_self _ _
      · rw [tableDelete, if_neg hk, List.map_cons, List.map_cons]
        exact List.Sublist.cons₂ _ ih

theorem mem_removeFirstById {t : Tx} {id : String} {l : List Tx}
    (h : t ∈ removeFirstById id l) : t ∈ l := by
  induction l with
  | nil => exact h
  | cons x xs ih =>
      by_cases hk : x.id = id
      · rw [removeFirstById, if_pos hk] at h
        exact List.mem_cons_of_mem _ h
      · rw [removeFirstById, if_neg hk] at h
        rcases List.mem_cons.mp h with rfl | h2
        · exact List.mem_cons_self _ _
        · exact List.mem_cons_of_mem _ (ih h2)

theorem removeFirstById_id_ne {t : Tx} {id : String} {l : List Tx}
    (hnd : (l.map Tx.id).Nodup) (h : t ∈ removeFirstById id l) : t.id ≠ id := by
  induction l with
  | nil => cases h
  | cons x xs ih =>
      simp only [List.map_cons, List.nodup_cons] at hnd
      by_cases hk : x.id = id
      · rw [removeFirstById, if_pos hk] at h
        intro ht
        apply hnd.1
        refine List.mem_map.mpr ⟨t, h, ?_⟩
        rw [ht, hk]
      · rw [removeFirstById, if_neg hk] at h
        rcases List.mem_cons.mp h with rfl | h2
        · exact hk
        · exact ih hnd.2 h2

theorem replaceFirstById_append {u t : Tx} {A B : List Tx}
    (hA : ∀ a ∈ A, a.id ≠ u.id) (ht : t.id = u.id) :
    replaceFirstById u (A ++ t :: B) = A ++ u :: B := by
  induction A with
  | nil => simp [replaceFirstById, ht]
  | cons a as ih =>
      have ha : a.id ≠ u.id := hA a (List.mem_cons_self _ _)
      simp only [List.cons_append, replaceFirstById, if_neg ha, List.append_eq]
      rw [ih (fun x hx => hA x (List.mem_cons_of_mem _ hx))]

theorem foldl_replaceFirstById_map {f : Tx → Tx} (hf : ∀ t, (f t).id = t.id) :
    ∀ (rest done : List Tx),
      ((done ++ rest).map Tx.id).Nodup →
      ((rest.map f).foldl (fun p u => replaceFirstById u p) (done.map f ++ rest)) =
        (done ++ rest).map f := by
  intro rest
  induction rest with
  | nil =>
      intro done _
      simp
  | cons t ts ih =>
      intro done hnd
      have hA : ∀ a ∈ done.map f, a.id ≠ (f t).id := by
        intro a ha
        rcases List.mem_map.mp ha with ⟨x, hx, rfl⟩
        rw [hf, hf]
        intro hxe
        have hsplit := List.nodup_append.mp (by
          simpa only [List.map_append] using hnd)
        exact hsplit.2.2 (List.mem_map.mpr ⟨x, hx, rfl⟩)
          (by
            rw [List.map_cons]
            exact hxe ▸ List.mem_cons_self t.id (ts.map Tx.id))
      have ht : t.id = (f t).id := (hf t).symm
      rw [List.map_cons, List.foldl_cons, replaceFirstById_append hA ht]
      have hshift : done.map f ++ f t :: ts = (done ++ [t]).map f ++ ts := by
        simp
      rw [hshift, ih (done ++ [t]) (by simpa using hnd)]
      simp

theorem resetRetryDelays_pending_perm {s : ExecState} (now : Nat)
    (hnd : (s.pending.map Tx.id).Nodup) :
    (resetRetryDelays now s).pending.Perm
      (s.pending.map (fun t => { t with nextAttemptAt := now })) := by
  have hcore := foldl_replaceFirstById_map
    (f := fun t => { t with nextAttemptAt := now }) (fun _ => rfl)
    s.pending [] (by simpa using hnd)
  simp only [List.map_nil, List.nil_append] at hcore
  show (sortByCreatedAt ((s.pending.map _).foldl _ s.pending)).Perm _
  rw [hcore]
  exact sortByCreatedAt_perm _

theorem resetRetryDelays_frame (now : Nat) (s : ExecState) :
    (resetRetryDelays now s).storage = s.storage ∧
    (resetRetryDelays now s).isRunning = s.isRunning ∧
    (resetRetryDelays now s).counter = s.counter ∧
    (resetRetryDelays now s).table = s.table ∧
    (resetRetryDelays now s).settled = s.settled ∧
    (resetRetryDelays now s).events = s.events :=
  ⟨rfl, rfl, rfl, rfl, rfl, rfl⟩

theorem foldl_schedule_frame (txs : List Tx) (s : ExecState) :
    (txs.foldl (fun acc tx => schedule tx acc) s).storage = s.storage ∧
    (txs.foldl (fun acc tx => schedule tx acc) s).isRunning = s.isRunning ∧
    (txs.foldl (fun acc tx => schedule tx acc) s).counter = s.counter ∧
    (txs.foldl (fun acc tx => schedule tx acc) s).table = s.table ∧
    (txs.foldl (fun acc tx => schedule tx acc) s).settled = s.settled ∧
    (txs.foldl (fun acc tx => schedule tx acc) s).events = s.events := by
  induction txs generalizing s with
  | nil => exact ⟨rfl, rfl, rfl, rfl, rfl, rfl⟩
  | cons t ts ih => exact ih (schedule t s)

theorem foldl_schedule_pending_perm (txs : List Tx) (s : ExecState) :
    ((txs.foldl (fun acc tx => schedule tx acc) s).pending).Perm
      (s.pending ++ txs) := by
  induction txs generalizing s with
  | nil => simp
  | cons t ts ih =>
      have h1 : ((ts.foldl (fun acc tx => schedule tx acc) (schedule t s)).pending).Perm
          ((schedule t s).pending ++ ts) := ih (schedule t s)
      refine h1.trans ?_
      have h2 : ((schedule t s).pending).Perm (s.pending ++ [t]) :=
        sortByCreatedAt_perm _
      refine (h2.append_right ts).trans ?_
      simp

theorem outboxGetAll_mem_iff {colls : List String} {st : List (String × Blob)}
    {t : Tx} :
    t ∈ outboxGetAll colls st ↔
      ∃ k, k ∈ st.map (fun e => e.1) ∧ strStartsWith k "tx:" = true ∧
        ∃ b, kvGet k st = some b ∧ deserialize colls b = some t := by
  rw [outboxGetAll, mem_sortByCreatedAt, List.mem_filterMap]
  constructor
  · rintro ⟨k, hk, hbind⟩
    rcases List.mem_filter.mp hk with ⟨hkmem, hkpre⟩
    rcases Option.bind_eq_some.mp hbind with ⟨b, hb, hdes⟩
    exact ⟨k, hkmem, hkpre, b, hb, hdes⟩
  · rintro ⟨k, hkmem, hkpre, b, hb, hdes⟩
    refine ⟨k, List.mem_filter.mpr ⟨hkmem, hkpre⟩, ?_⟩
    rw [hb]
    exact hdes

theorem outboxGetAll_sorted (colls : List String) (st : List (String × Blob)) :
    (outboxGetAll colls st).Pairwise (fun a b => a.createdAt ≤ b.createdAt) :=
  sortByCreatedAt_sorted _

theorem outboxGetAll_ids_nodup {colls : List String} {st : List (String × Blob)}
    (hkeys : (st.map (fun e => e.1)).Nodup)
    (hwf : ∀ e ∈ st, ∀ t, deserialize colls e.2 = some t → e.1 = txKey t.id) :
    ((outboxGetAll colls st).map Tx.id).Nodup := by
  have hperm : ((outboxGetAll colls st).map Tx.id).Perm
      ((((st.map (fun e => e.1)).filter (fun k => strStartsWith k "tx:")).filterMap
        (fun k => (kvGet k st).bind (deserialize colls))).map Tx.id) :=
    (sortByCreatedAt_perm _).map Tx.id
  rw [hperm.nodup_iff, List.map_filterMap]
  apply List.Nodup.filterMap
  · intro k1 k2 i hi1 hi2
    rcases Option.map_eq_some'.mp hi1 with ⟨t1, hb1, hid1⟩
    rcases Option.bind_eq_some.mp hb1 with ⟨b1, hg1, hd1⟩
    rcases Option.map_eq_some'.mp hi2 with ⟨t2, hb2, hid2⟩
    rcases Option.bind_eq_some.mp hb2 with ⟨b2, hg2, hd2⟩
    have hk1 : k1 = txKey t1.id := hwf (k1, b1) (kvGet_mem hg1) t1 hd1
    have hk2 : k2 = txKey t2.id := hwf (k2, b2) (kvGet_mem hg2) t2 hd2
    rw [hk1, hk2, hid1, hid2]
  · exact hkeys.filter _

theorem tableLookup_eq_none_iff {id : String} {tb : List (String × Nat)} :
    tableLookup id tb = none ↔ id ∉ tb.map (fun e => e.1) := by
  induction tb with
  | nil => simp [tableLookup]
  | cons e es ih =>
      by_cases hk : e.1 = id
      · simp [tableLookup, hk]
      · simp only [tableLookup, if_neg hk, List.map_cons, List.mem_cons, not_or, ih]
        constructor
        · intro h
          exact ⟨fun he => hk he.symm, h⟩
        · intro h
          exact h.2

theorem tableLookup_append_right {id : String} {tb : List (String × Nat)}
    (h : tableLookup id tb = none) (c : Nat) :
    tableLookup id (tb ++ [(id, c)]) = some c := by
  induction tb with
  | nil => simp [tableLookup]
  | cons e es ih =>
      by_cases hk : e.1 = id
      · rw [tableLookup, if_pos hk] at h
        cases h
      · rw [tableLookup, if_neg hk] at h
        rw [List.cons_append, tableLookup, if_neg hk]
        exact ih h

/-- C5: `getNextBatch` ignores the requested `maxConcurrency` argument,
returns a batch of length at most one, returns the empty batch whenever
the running flag is set or nothing is pending, otherwise returns the first
pending transaction with `nextAttemptAt ≤ now` as a singleton (empty when
none is ready); and the scheduler's running count is always 0 or 1. -/
theorem claim_C5 (s : ExecState) (now m m' : Nat) :
    getNextBatch now m s = getNextBatch now m' s ∧
    (getNextBatch now m s).length ≤ 1 ∧
    (s.isRunning = true → getNextBatch now m s = []) ∧
    (s.pending = [] → getNextBatch now m s = []) ∧
    (∀ t, getNextBatch now m s = [t] →
      s.isRunning = false ∧
      s.pending.find? (fun tx => tx.nextAttemptAt ≤ now) = some t) ∧
    (s.pending.find? (fun tx => tx.nextAttemptAt ≤ now) = none →
      getNextBatch now m s = []) ∧
    getRunningCount s ≤ 1 := by
  refine ⟨rfl, ?_, ?_, ?_, ?_, ?_, ?_⟩
  · rw [getNextBatch]
    split
    · simp
    · split <;> simp
  · intro h
    rw [getNextBatch]
    simp [h]
  · intro h
    rw [getNextBatch]
    simp [h]
  · intro t h
    rw [getNextBatch] at h
    by_cases hr : (s.isRunning || s.pending.isEmpty) = true
    · rw [if_pos hr] at h
      cases h
    · rw [if_neg hr] at h
      simp only [Bool.or_eq_true, not_or, Bool.not_eq_true] at hr
      refine ⟨hr.1, ?_⟩
      cases hfind : s.pending.find? (fun tx => tx.nextAttemptAt ≤ now) with
      | none =>
          rw [hfind] at h
          cases h
      | some a =>
          rw [hfind] at h
          simp only [List.cons.injEq, and_true] at h
          rw [h]
  · intro h
    rw [getNextBatch, h]
    split <;> rfl
  · rw [getRunningCount]
    split <;> simp

/-- C5 witness: a concrete empty scheduler state, two different requested
concurrencies. -/
theorem claim_C5_witness :
    getNextBatch 0 3 (ExecState.mk [] false [] 0 [] [] []) =
      getNextBatch 0 7 (ExecState.mk [] false [] 0 [] [] []) ∧
    getNextBatch 0 3 (ExecState.mk [] false [] 0 [] [] []) = [] := by
  have h := claim_C5 (ExecState.mk [] false [] 0 [] [] []) 0 3 7
  exact ⟨h.1, h.2.2.2.1 rfl⟩

/-- C9: the waiter registry keeps at most one deferred per transaction id:
`waitFor` returns the registered deferred's token when one exists and
otherwise creates, stores and returns a new one; `resolve` and `reject`
settle the registered deferred (recording the settlement) and remove its
entry when one is present — afterwards no deferred is registered for the
id — and are no-ops for an unregistered id; a second `resolve` for the
same id is therefore a no-op; and all three operations preserve the
at-most-one-deferred-per-id invariant. -/
theorem claim_C9 (s : ExecState) (id : String) (v : JsValue) (e : ErrV) :
    (∀ tok, tableLookup id s.table = some tok → waitFor id s = (tok, s)) ∧
    (tableLookup id s.table = none →
      (waitFor id s).1 = s.counter ∧
      tableLookup id ((waitFor id s).2.table) = some s.counter) ∧
    (tableLookup id s.table = none →
      resolveTransaction id v s = s ∧ rejectTransaction id e s = s) ∧
    (∀ tok, tableLookup id s.table = some tok →
      (resolveTransaction id v s).settled =
        s.settled ++ [(tok, Settlement.resolved v)] ∧
      (resolveTransaction id v s).table = tableDelete id s.table ∧
      (rejectTransaction id e s).settled =
        s.settled ++ [(tok, Settlement.rejected e)] ∧
      (rejectTransaction id e s).table = tableDelete id s.table) ∧
    ((s.table.map (fun en => en.1)).Nodup →
      ∀ tok, tableLookup id s.table = some tok →
        tableLookup id ((resolveTransaction id v s).table) = none ∧
        tableLookup id ((rejectTransaction id e s).table) = none) ∧
    ((s.table.map (fun en => en.1)).Nodup →
      resolveTransaction id v (resolveTransaction id v s) =
        resolveTransaction id v s) ∧
    ((s.table.map (fun en => en.1)).Nodup →
      (((waitFor id s).2.table).map (fun en => en.1)).Nodup ∧
      ((resolveTransaction id v s).table.map (fun en => en.1)).Nodup ∧
      ((rejectTransaction id e s).table.map (fun en => en.1)).Nodup) := by
  refine ⟨?_, ?_, ?_, ?_, ?_, ?_, ?_⟩
  · intro tok h
    rw [waitFor, h]
  · intro h
    rw [waitFor, h]
    exact ⟨rfl, tableLookup_append_right h s.counter⟩
  · intro h
    constructor
    · rw [resolveTransaction, h]
    · rw [rejectTransaction, h]
  · intro tok h
    refine ⟨?_, ?_, ?_, ?_⟩
    · rw [resolveTransaction, h]
    · rw [resolveTransaction, h]
    · rw [rejectTransaction, h]
    · rw [rejectTransaction, h]
  · intro hnd tok h
    constructor
    · have ht : (resolveTransaction id v s).table = tableDelete id s.table := by
        rw [resolveTransaction, h]
      rw [ht]
      exact tableLookup_tableDelete_self hnd
    · have ht : (rejectTransaction id e s).table = tableDelete id s.table := by
        rw [rejectTransaction, h]
      rw [ht]
      exact tableLookup_tableDelete_self hnd
  · intro hnd
    cases hl : tableLookup id s.table with
    | none =>
        have h1 : resolveTransaction id v s = s := by rw [resolveTransaction, hl]
        rw [h1, resolveTransaction, hl]
    | some tok =>
        have h1 : resolveTransaction id v s =
            { s with settled := s.settled ++ [(tok, Settlement.resolved v)],
                     table := tableDelete id s.table } := by
          rw [resolveTransaction, hl]
        rw [h1]
        rw [resolveTransaction, show tableLookup id (tableDelete id s.table) = none
          from tableLookup_tableDelete_self hnd]
  · intro hnd
    refine ⟨?_, ?_, ?_⟩
    · cases hl : tableLookup id s.table with
      | some tok => rw [waitFor, hl]; exact hnd
      | none =>
          rw [waitFor, hl]
          have hid : id ∉ s.table.map (fun en => en.1) :=
            tableLookup_eq_none_iff.mp hl
          simp [List.nodup_append, hnd, hid]
    · cases hl : tableLookup id s.table with
      | none => rw [resolveTransaction, hl]; exact hnd
      | some tok =>
          rw [resolveTransaction, hl]
          exact hnd.sublist (tableDelete_keys_sublist id s.table)
    · cases hl : tableLookup id s.table with
      | none => rw [rejectTransaction, hl]; exact hnd
      | some tok =>
          rw [rejectTransaction, hl]
          exact hnd.sublist (tableDelete_keys_sublist id s.table)

/-- C9 witness: on a concrete state with a deferred registered for id `a`
under token 7, `waitFor` returns it as-is; a resolve settles that deferred
with the value and deregisters the id; and a second resolve after the
first is a no-op. -/
theorem claim_C9_witness :
    waitFor "a" (ExecState.mk [] false [] 8 [("a", 7)] [] []) =
      (7, ExecState.mk [] false [] 8 [("a", 7)] [] []) ∧
    (resolveTransaction "a" JsValue.undefined
        (ExecState.mk [] false [] 8 [("a", 7)] [] [])).settled =
      [] ++ [(7, Settlement.resolved JsValue.undefined)] ∧
    tableLookup "a"
        ((resolveTransaction "a" JsValue.undefined
          (ExecState.mk [] false [] 8 [("a", 7)] [] [])).table) = none ∧
    resolveTransaction "a" JsValue.undefined
        (resolveTransaction "a" JsValue.undefined
          (ExecState.mk [] false [] 8 [("a", 7)] [] [])) =
      resolveTransaction "a" JsValue.undefined
        (ExecState.mk [] false [] 8 [("a", 7)] [] []) := by
  have h := claim_C9 (ExecState.mk [] false [] 8 [("a", 7)] [] []) "a"
    JsValue.undefined (nonRetriableError "x")
  exact ⟨h.1 7 rfl, (h.2.2.2.1 7 rfl).1,
    (h.2.2.2.2.1 (by decide) 7 rfl).1, h.2.2.2.2.2.1 (by decide)⟩

theorem mem_replaceFirstById_self {u : Tx} {l : List Tx}
    (h : ∃ p ∈ l, p.id = u.id) : u ∈ replaceFirstById u l := by
  induction l with
  | nil => rcases h with ⟨p, hp, _⟩; cases hp
  | cons x xs ih =>
      by_cases hk : x.id = u.id
      · rw [replaceFirstById, if_pos hk]
        exact List.mem_cons_self _ _
      · rw [replaceFirstById, if_neg hk]
        rcases h with ⟨p, hp, hpe⟩
        rcases List.mem_cons.mp hp with rfl | hp2
        · exact absurd hpe hk
        · exact List.mem_cons_of_mem _ (ih ⟨p, hp2, hpe⟩)

theorem mem_replaceFirstById {t u : Tx} {l : List Tx}
    (h : t ∈ replaceFirstById u l) : t ∈ l ∨ t = u := by
  induction l with
  | nil => cases h
  | cons x xs ih =>
      by_cases hk : x.id = u.id
      · rw [replaceFirstById, if_pos hk] at h
        rcases List.mem_cons.mp h with rfl | h2
        · exact Or.inr rfl
        · exact Or.inl (List.mem_cons_of_mem _ h2)
      · rw [replaceFirstById, if_neg hk] at h
        rcases List.mem_cons.mp h with rfl | h2
        · exact Or.inl (List.mem_cons_self _ _)
        · rcases ih h2 with h3 | h3
          · exact Or.inl (List.mem_cons_of_mem _ h3)
          · exact Or.inr h3

theorem kvGet_of_mem_nodup {k : String} {b : Blob} {st : List (String × Blob)}
    (hnd : (st.map (fun e => e.1)).Nodup) (hmem : (k, b) ∈ st) :
    kvGet k st = some b := by
  induction st with
  | nil => cases hmem
  | cons e es ih =>
      simp only [List.map_cons, List.nodup_cons] at hnd
      rcases List.mem_cons.mp hmem with rfl | h2
      · rw [kvGet, if_pos rfl]
      · by_cases hk : e.1 = k
        · exfalso
          apply hnd.1
          refine List.mem_map.mpr ⟨(k, b), h2, ?_⟩
          exact hk.symm
        · rw [kvGet, if_neg hk]
          exact ih hnd.2 h2

theorem mem_outboxRemoveMany {e : String × Blob} {ids : List String}
    {st : List (String × Blob)} (h : e ∈ outboxRemoveMany ids st) :
    e ∈ st ∧ ∀ i ∈ ids, e.1 ≠ txKey i := by
  induction ids generalizing st with
  | nil => exact ⟨h, fun i hi => absurd hi (List.not_mem_nil i)⟩
  | cons i is ih =>
      have hstep : outboxRemoveMany (i :: is) st =
          outboxRemoveMany is (outboxRemove i st) := rfl
      rw [hstep] at h
      rcases ih h with ⟨hmem, hrest⟩
      have hmem2 := List.mem_filter.mp hmem
      refine ⟨hmem2.1, ?_⟩
      intro j hj
      rcases List.mem_cons.mp hj with rfl | hj2
      · simpa using hmem2.2
      · exact hrest j hj2

/-- C2 counterexample: at a legitimate (createdAt-sorted, not running)
scheduler state, `getNextBatch` selects — and the drain therefore starts —
the later-created transaction `c2late` while the earlier-created `c2early`
is still pending, because `c2early.nextAttemptAt` has not been reached. -/
theorem claim_C2_counterexample :
    getNextBatch 50 1 c2state = [c2late] ∧
    c2early ∈ c2state.pending ∧
    c2early.createdAt < c2late.createdAt ∧
    c2state.pending.Pairwise (fun a b => a.createdAt ≤ b.createdAt) := by
  refine ⟨?_, ?_, ?_, ?_⟩ <;> decide

/-- C2 (amended): transactions are started in ascending `createdAt` order
among the ready ones: whenever `getNextBatch` returns a transaction to
start from a createdAt-sorted pending list, every pending transaction
created strictly earlier is not yet ready (`nextAttemptAt > now`). -/
theorem claim_C2 (s : ExecState) (now m : Nat) (t : Tx)
    (hsorted : s.pending.Pairwise (fun a b => a.createdAt ≤ b.createdAt))
    (hbatch : getNextBatch now m s = [t]) :
    ∀ u ∈ s.pending, u.createdAt < t.createdAt → now < u.nextAttemptAt := by
  intro u hu hlt
  rw [getNextBatch] at hbatch
  by_cases hr : (s.isRunning || s.pending.isEmpty) = true
  · rw [if_pos hr] at hbatch
    cases hbatch
  · rw [if_neg hr] at hbatch
    cases hfind : s.pending.find? (fun tx => tx.nextAttemptAt ≤ now) with
    | none =>
        rw [hfind] at hbatch
        cases hbatch
    | some a =>
        rw [hfind] at hbatch
        simp only [List.cons.injEq, and_true] at hbatch
        subst hbatch
        rcases List.find?_eq_some.mp hfind with ⟨hpred, as, bs, hsplit, hfail⟩
        rw [hsplit] at hu hsorted
        rcases List.mem_append.mp hu with hu1 | hu2
        · have hfail_u := hfail u hu1
          simp only [Bool.not_eq_true', decide_eq_false_iff_not, not_le] at hfail_u
          exact hfail_u
        · rcases List.mem_cons.mp hu2 with rfl | hu3
          · exact absurd hlt (lt_irrefl _)
          · have hpair := List.pairwise_append.mp hsorted
            have hle : a.createdAt ≤ u.createdAt :=
              (List.pairwise_cons.mp hpair.2.1).1 u hu3
            exact absurd hlt (not_lt.mpr hle)

/-- C2 witness: the amended theorem applied at the concrete sorted
scheduler state of the counterexample, instantiated at the earlier-created
pending transaction: its backoff deadline 100 has not been reached at
time 50. -/
theorem claim_C2_witness : 50 < c2early.nextAttemptAt :=
  claim_C2 c2state 50 1 c2late (by decide) (by decide) c2early (by decide)
    (by decide)

/-- C1: on a successful mutation call the executor does mark the
transaction completed in the scheduler and remove its outbox entry, but —
because `runMutationFn` is typed `Promise<void>` and never returns the
awaited value — the registered waiter is resolved with `undefined`, not
with the value the mutation function returned (`payload "ok1"` here).
This evaluates the code at the failing input of the claim. -/
theorem claim_C1 :
    (executeTransaction c1cfg defaultRetryPolicy c1tx 50 c1state).settled =
      [(0, Settlement.resolved JsValue.undefined)] ∧
    (c1cfg.mutationFns c1tx.mutationFnName).map
        (fun fn => fn ⟨c1tx.id, c1tx.mutations, [], c1tx.idempotencyKey⟩) =
      some (Except.ok (JsValue.payload "ok1")) ∧
    JsValue.undefined ≠ JsValue.payload "ok1" ∧
    (executeTransaction c1cfg defaultRetryPolicy c1tx 50 c1state).pending = [] ∧
    (executeTransaction c1cfg defaultRetryPolicy c1tx 50 c1state).isRunning =
      false ∧
    kvGet (txKey c1tx.id)
        (executeTransaction c1cfg defaultRetryPolicy c1tx 50 c1state).storage =
      none := by
  refine ⟨rfl, rfl, by decide, rfl, rfl, rfl⟩

/-- C8 counterexample: `getAll` deduplicates nothing, so a storage state in
which two different `tx:` keys hold envelopes with the same id yields that
id twice — the claim's universal no-duplicate guarantee fails. -/
theorem claim_C8_counterexample :
    (outboxGetAll ["c1"] c8storage).map Tx.id = ["b", "b"] ∧
    ¬ ((outboxGetAll ["c1"] c8storage).map Tx.id).Nodup := by
  refine ⟨?_, ?_⟩ <;> decide

/-- C8 (amended): `getAll` returns exactly the transactions read from
`tx:`-prefixed keys whose blobs deserialize (failures skipped), sorted
ascending by `createdAt`; and, provided every stored entry that
deserializes sits under the key `tx:<its id>` (as `Outbox.add` maintains)
and the keys are distinct, it never yields two transactions with the same
id. -/
theorem claim_C8 (colls : List String) (st : List (String × Blob)) :
    (∀ t ∈ outboxGetAll colls st,
      ∃ k, k ∈ st.map (fun e => e.1) ∧ strStartsWith k "tx:" = true ∧
        ∃ b, kvGet k st = some b ∧ deserialize colls b = some t) ∧
    (∀ k b t, k ∈ st.map (fun e => e.1) → strStartsWith k "tx:" = true →
      kvGet k st = some b → deserialize colls b = some t →
      t ∈ outboxGetAll colls st) ∧
    (outboxGetAll colls st).Pairwise (fun a b => a.createdAt ≤ b.createdAt) ∧
    ((st.map (fun e => e.1)).Nodup →
      (∀ e ∈ st, ∀ t, deserialize colls e.2 = some t → e.1 = txKey t.id) →
      ((outboxGetAll colls st).map Tx.id).Nodup) := by
  refine ⟨?_, ?_, outboxGetAll_sorted colls st, ?_⟩
  · intro t ht
    exact outboxGetAll_mem_iff.mp ht
  · intro k b t hk hpre hget hdes
    exact outboxGetAll_mem_iff.mpr ⟨k, hk, hpre, b, hget, hdes⟩
  · intro hkeys hwf
    exact outboxGetAll_ids_nodup hkeys hwf

/-- C8 witness: the amended theorem's no-duplicate conclusion at a
concrete well-formed storage state. -/
theorem claim_C8_witness :
    ((outboxGetAll ["c1"] [(txKey "a", Blob.env 1 c8wtx)]).map Tx.id).Nodup :=
  (claim_C8 ["c1"] [(txKey "a", Blob.env 1 c8wtx)]).2.2.2 (by decide)
    (by
      intro e he t hdes
      rcases List.mem_singleton.mp he with rfl
      have h2 : (some c8wtx : Option Tx) = some t := hdes
      injection h2 with h3
      rw [← h3]
      rfl)

/-- C10: `resetRetryDelays` mutates only the in-memory scheduler: the
pending list becomes (a permutation of) the old one with every
`nextAttemptAt` set to the current time and all other transaction fields,
membership and id multiplicity intact, while the storage, the waiter
registry, the running flag and the emitted events are untouched — nothing
is persisted. -/
theorem claim_C10 (now : Nat) (s : ExecState)
    (hnd : (s.pending.map Tx.id).Nodup) :
    (resetRetryDelays now s).storage = s.storage ∧
    (resetRetryDelays now s).pending.Perm
      (s.pending.map (fun t => { t with nextAttemptAt := now })) ∧
    ((resetRetryDelays now s).pending.map Tx.id).Perm (s.pending.map Tx.id) ∧
    (∀ u ∈ (resetRetryDelays now s).pending, u.nextAttemptAt = now) ∧
    (resetRetryDelays now s).isRunning = s.isRunning ∧
    (resetRetryDelays now s).counter = s.counter ∧
    (resetRetryDelays now s).table = s.table ∧
    (resetRetryDelays now s).settled = s.settled ∧
    (resetRetryDelays now s).events = s.events := by
  have hperm := resetRetryDelays_pending_perm now hnd
  refine ⟨rfl, hperm, ?_, ?_, rfl, rfl, rfl, rfl, rfl⟩
  · have heq : (s.pending.map
        (fun t => ({ t with nextAttemptAt := now } : Tx))).map Tx.id =
        s.pending.map Tx.id := by
      rw [List.map_map]
      rfl
    have h2 := hperm.map Tx.id
    rw [heq] at h2
    exact h2
  · intro u hu
    have hu2 := hperm.mem_iff.mp hu
    rcases List.mem_map.mp hu2 with ⟨x, _, rfl⟩
    rfl

/-- C10 witness: storage untouched and every pending `nextAttemptAt`
reset, at a concrete state. -/
theorem claim_C10_witness :
    (resetRetryDelays 9999 c10state).storage = c10state.storage ∧
    ∀ u ∈ (resetRetryDelays 9999 c10state).pending, u.nextAttemptAt = 9999 := by
  have h := claim_C10 9999 c10state (by decide)
  exact ⟨h.1, h.2.2.2.1⟩

theorem handleError_noRetry (policy : RetryPolicyM) (colls : List String)
    (tx : Tx) (e : ErrV) (now : Nat) (s : ExecState) (tok : Nat)
    (hretry : policy.shouldRetry e tx.retryCount = false)
    (hw : tableLookup tx.id s.table = some tok) :
    handleError policy colls tx e now s =
      { s with pending := removeFirstById tx.id s.pending,
               isRunning := false,
               storage := outboxRemove tx.id s.storage,
               settled := s.settled ++ [(tok, Settlement.rejected e)],
               table := tableDelete tx.id s.table } := by
  simp only [handleError, hretry, Bool.false_eq_true, if_false, markCompleted,
    rejectTransaction, hw]

theorem handleError_retry (policy : RetryPolicyM) (colls : List String)
    (tx tx' : Tx) (e : ErrV) (now : Nat) (s : ExecState)
    (hretry : policy.shouldRetry e tx.retryCount = true)
    (hmem : s.pending.any (fun t => t.id = tx.id) = true)
    (hget : outboxGet colls tx.id s.storage = some tx') :
    handleError policy colls tx e now s =
      { s with
        pending := sortByCreatedAt
          (replaceFirstById (retryUpdate policy tx e now) s.pending),
        isRunning := false,
        storage := outboxAdd (retryUpdate policy tx e now) s.storage } := by
  simp only [handleError, hretry, if_true, markFailed, updateTransaction,
    retryUpdate, hmem, outboxUpdate, hget]

/-- C3: on a failure the policy retries, the executor produces the updated
record with `retryCount` incremented, `nextAttemptAt = now + delay`,
`lastError` set from the error (id and all other fields kept), clears the
running flag, replaces the record in the scheduler by id (present in the
new pending list), and persists the serialized updated record under the
transaction's outbox key. -/
theorem claim_C3 (policy : RetryPolicyM) (colls : List String) (tx tx' : Tx)
    (e : ErrV) (now : Nat) (s : ExecState)
    (hretry : policy.shouldRetry e tx.retryCount = true)
    (hmem : tx.id ∈ s.pending.map Tx.id)
    (hget : outboxGet colls tx.id s.storage = some tx') :
    (retryUpdate policy tx e now).retryCount = tx.retryCount + 1 ∧
    (retryUpdate policy tx e now).nextAttemptAt =
      now + policy.calculateDelay tx.retryCount ∧
    (retryUpdate policy tx e now).lastError =
      some ⟨e.name, e.message, e.stack⟩ ∧
    (retryUpdate policy tx e now).id = tx.id ∧
    (handleError policy colls tx e now s).isRunning = false ∧
    retryUpdate policy tx e now ∈ (handleError policy colls tx e now s).pending ∧
    (handleError policy colls tx e now s).pending.Perm
      (replaceFirstById (retryUpdate policy tx e now) s.pending) ∧
    kvGet (txKey tx.id) (handleError policy colls tx e now s).storage =
      some (serialize (retryUpdate policy tx e now)) := by
  rcases List.mem_map.mp hmem with ⟨p, hp, hpid⟩
  have hany : s.pending.any (fun t => t.id = tx.id) = true :=
    List.any_eq_true.mpr ⟨p, hp, by simp [hpid]⟩
  rw [handleError_retry policy colls tx tx' e now s hretry hany hget]
  refine ⟨rfl, rfl, rfl, rfl, rfl, ?_, sortByCreatedAt_perm _, ?_⟩
  · apply mem_sortByCreatedAt.mpr
    exact mem_replaceFirstById_self ⟨p, hp, hpid⟩
  · exact kvGet_kvSet_self _ _ _

/-- C3 witness: the retriable-failure theorem at a concrete transient
error and state. -/
theorem claim_C3_witness :
    (retryUpdate defaultRetryPolicy c3tx ⟨"Error", "boom", some "trace", false⟩
      50).retryCount = c3tx.retryCount + 1 ∧
    kvGet (txKey c3tx.id)
        (handleError defaultRetryPolicy ["c1"] c3tx
          ⟨"Error", "boom", some "trace", false⟩ 50 c3state).storage =
      some (serialize (retryUpdate defaultRetryPolicy c3tx
        ⟨"Error", "boom", some "trace", false⟩ 50)) := by
  have h := claim_C3 defaultRetryPolicy ["c1"] c3tx c3tx
    ⟨"Error", "boom", some "trace", false⟩ 50 c3state (by decide) (by decide)
    (by decide)
  exact ⟨h.1, h.2.2.2.2.2.2.2⟩

/-- C4: on a failure the policy does not retry, the transaction is removed
from the scheduler's pending list (no pending entry keeps its id), its
outbox entry is deleted, and the waiter registered for its id is rejected
with that error and deregistered. -/
theorem claim_C4 (policy : RetryPolicyM) (colls : List String) (tx : Tx)
    (e : ErrV) (now : Nat) (s : ExecState) (tok : Nat)
    (hretry : policy.shouldRetry e tx.retryCount = false)
    (hnd : (s.pending.map Tx.id).Nodup)
    (hndtb : (s.table.map (fun en => en.1)).Nodup)
    (hw : tableLookup tx.id s.table = some tok) :
    (∀ p ∈ (handleError policy colls tx e now s).pending, p.id ≠ tx.id) ∧
    kvGet (txKey tx.id) (handleError policy colls tx e now s).storage = none ∧
    (tok, Settlement.rejected e) ∈
      (handleError policy colls tx e now s).settled ∧
    tableLookup tx.id (handleError policy colls tx e now s).table = none := by
  rw [handleError_noRetry policy colls tx e now s tok hretry hw]
  refine ⟨?_, ?_, ?_, ?_⟩
  · intro p hp
    exact removeFirstById_id_ne hnd hp
  · exact kvGet_kvDelete_self _ _
  · exact List.mem_append_right _ (List.mem_singleton.mpr rfl)
  · exact tableLookup_tableDelete_self hndtb

/-- C4 witness: the permanent-failure theorem at a concrete
`NonRetriableError` and state. -/
theorem claim_C4_witness :
    (∀ p ∈ (handleError defaultRetryPolicy ["c1"] c4tx
        (nonRetriableError "bad input") 50 c4state).pending, p.id ≠ c4tx.id) ∧
    kvGet (txKey c4tx.id)
        (handleError defaultRetryPolicy ["c1"] c4tx
          (nonRetriableError "bad input") 50 c4state).storage = none ∧
    (0, Settlement.rejected (nonRetriableError "bad input")) ∈
      (handleError defaultRetryPolicy ["c1"] c4tx
        (nonRetriableError "bad input") 50 c4state).settled ∧
    tableLookup c4tx.id
        (handleError defaultRetryPolicy ["c1"] c4tx
          (nonRetriableError "bad input") 50 c4state).table = none :=
  claim_C4 defaultRetryPolicy ["c1"] c4tx (nonRetriableError "bad input") 50
    c4state 0 (by decide) (by decide) (by decide) (by decide)

/-- C7: when the transaction's `mutationFnName` resolves to no function in
the registry, the configured `onUnknownMutationFn` callback fires exactly
once with the name and the transaction, and the attempt fails with a
`NonRetriable` error: the transaction leaves the pending list, its outbox
entry is deleted, and the registered waiter is rejected with that error. -/
theorem claim_C7 (cfg : Config) (tx : Tx) (now : Nat) (s : ExecState)
    (tok : Nat)
    (hfn : cfg.mutationFns tx.mutationFnName = none)
    (hcb : cfg.hasOnUnknownMutationFn = true)
    (hnd : (s.pending.map Tx.id).Nodup)
    (hndtb : (s.table.map (fun en => en.1)).Nodup)
    (hw : tableLookup tx.id s.table = some tok) :
    (executeTransaction cfg defaultRetryPolicy tx now s).events =
      s.events ++ [Event.unknownFn tx.mutationFnName tx] ∧
    (∀ p ∈ (executeTransaction cfg defaultRetryPolicy tx now s).pending,
      p.id ≠ tx.id) ∧
    kvGet (txKey tx.id)
        (executeTransaction cfg defaultRetryPolicy tx now s).storage = none ∧
    (tok, Settlement.rejected (nonRetriableError
        ("Unknown mutation function: " ++ tx.mutationFnName))) ∈
      (executeTransaction cfg defaultRetryPolicy tx now s).settled ∧
    tableLookup tx.id
        (executeTransaction cfg defaultRetryPolicy tx now s).table = none := by
  have hstate : executeTransaction cfg defaultRetryPolicy tx now s =
      handleError defaultRetryPolicy cfg.collections tx
        (nonRetriableError ("Unknown mutation function: " ++ tx.mutationFnName))
        now
        { s with isRunning := true,
                 events := s.events ++ [Event.unknownFn tx.mutationFnName tx] } := by
    simp only [executeTransaction, hfn, hcb, if_true, markStarted]
  have hret : defaultRetryPolicy.shouldRetry
      (nonRetriableError ("Unknown mutation function: " ++ tx.mutationFnName))
      tx.retryCount = false := rfl
  rw [hstate,
    handleError_noRetry defaultRetryPolicy cfg.collections tx _ now
      { s with isRunning := true,
               events := s.events ++ [Event.unknownFn tx.mutationFnName tx] }
      tok hret hw]
  refine ⟨rfl, ?_, ?_, ?_, ?_⟩
  · intro p hp
    exact removeFirstById_id_ne hnd hp
  · exact kvGet_kvDelete_self _ _
  · exact List.mem_append_right _ (List.mem_singleton.mpr rfl)
  · exact tableLookup_tableDelete_self hndtb

/-- C7 witness: the unknown-mutation-function theorem at a concrete state
with an empty registry. -/
theorem claim_C7_witness :
    (executeTransaction c7cfg defaultRetryPolicy c7tx 50 c7state).events =
      c7state.events ++ [Event.unknownFn c7tx.mutationFnName c7tx] ∧
    kvGet (txKey c7tx.id)
        (executeTransaction c7cfg defaultRetryPolicy c7tx 50 c7state).storage =
      none ∧
    (0, Settlement.rejected (nonRetriableError
        ("Unknown mutation function: " ++ c7tx.mutationFnName))) ∈
      (executeTransaction c7cfg defaultRetryPolicy c7tx 50 c7state).settled := by
  have h := claim_C7 c7cfg c7tx 50 c7state 0 rfl rfl (by decide) (by decide)
    (by decide)
  exact ⟨h.1, h.2.2.1, h.2.2.2.1⟩

/-- C6: `loadPendingTransactions` fetches the outbox transactions, applies
the `beforeRetry` filter (identity when unsupplied), schedules exactly the
filtered set into the (initially empty) scheduler with every
`nextAttemptAt` reset to the current time, deletes the complement from the
outbox while leaving the filtered transactions' entries untouched, and
emits no callback or mutation-function event; in particular when
`beforeRetry` returns the empty list the scheduler stays empty and (for a
well-formed outbox) every envelope is removed from storage.  The
`scheduleNextRetry` timer arming is a wall-clock side effect outside this
state model. -/
theorem claim_C6 (cfg : Config) (now : Nat) (s : ExecState) (filtered : List Tx)
    (hpend : s.pending = [])
    (hfil : applyBeforeRetry cfg (outboxGetAll cfg.collections s.storage) =
      filtered)
    (hnd : (filtered.map Tx.id).Nodup) :
    (loadPendingTransactions cfg now s).pending.Perm
      (filtered.map (fun t => { t with nextAttemptAt := now })) ∧
    (∀ u ∈ (loadPendingTransactions cfg now s).pending, u.nextAttemptAt = now) ∧
    (∀ t ∈ outboxGetAll cfg.collections s.storage,
      (∀ f ∈ filtered, f.id ≠ t.id) →
      kvGet (txKey t.id) (loadPendingTransactions cfg now s).storage = none) ∧
    (∀ f ∈ filtered,
      kvGet (txKey f.id) (loadPendingTransactions cfg now s).storage =
        kvGet (txKey f.id) s.storage) ∧
    (loadPendingTransactions cfg now s).events = s.events ∧
    (filtered = [] →
      (loadPendingTransactions cfg now s).pending = [] ∧
      ((s.storage.map (fun en => en.1)).Nodup →
       (∀ en ∈ s.storage, strStartsWith en.1 "tx:" = true →
          ∃ t, deserialize cfg.collections en.2 = some t ∧ en.1 = txKey t.id) →
       ∀ en ∈ (loadPendingTransactions cfg now s).storage,
         strStartsWith en.1 "tx:" = false)) := by
  have hload0 : loadPendingTransactions cfg now s =
      (if ((outboxGetAll cfg.collections s.storage).filter
            (fun tx => !((applyBeforeRetry cfg
              (outboxGetAll cfg.collections s.storage)).any
                (fun f => f.id = tx.id)))).isEmpty
       then resetRetryDelays now
          ((applyBeforeRetry cfg (outboxGetAll cfg.collections s.storage)).foldl
            (fun acc tx => schedule tx acc) s)
       else { resetRetryDelays now
          ((applyBeforeRetry cfg (outboxGetAll cfg.collections s.storage)).foldl
            (fun acc tx => schedule tx acc) s) with
          storage := outboxRemoveMany
            (((outboxGetAll cfg.collections s.storage).filter
              (fun tx => !((applyBeforeRetry cfg
                (outboxGetAll cfg.collections s.storage)).any
                  (fun f => f.id = tx.id)))).map (fun tx => tx.id))
            (resetRetryDelays now
              ((applyBeforeRetry cfg
                (outboxGetAll cfg.collections s.storage)).foldl
                (fun acc tx => schedule tx acc) s)).storage }) := rfl
  rw [hfil] at hload0
  have hf1 : ((filtered.foldl (fun acc tx => schedule tx acc) s).pending).Perm
      filtered := by
    have h := foldl_schedule_pending_perm filtered s
    rw [hpend] at h
    simpa using h
  have hfr := foldl_schedule_frame filtered s
  have hnd1 : (((filtered.foldl (fun acc tx => schedule tx acc) s).pending).map
      Tx.id).Nodup :=
    ((hf1.map Tx.id)).nodup_iff.mpr hnd
  have hp2 : (resetRetryDelays now
      (filtered.foldl (fun acc tx => schedule tx acc) s)).pending.Perm
      (filtered.map (fun t => { t with nextAttemptAt := now })) :=
    (resetRetryDelays_pending_perm now hnd1).trans
      (hf1.map (fun t => { t with nextAttemptAt := now }))
  have hst2 : (resetRetryDelays now
      (filtered.foldl (fun acc tx => schedule tx acc) s)).storage = s.storage :=
    (resetRetryDelays_frame now _).1.trans hfr.1
  have hev2 : (resetRetryDelays now
      (filtered.foldl (fun acc tx => schedule tx acc) s)).events = s.events :=
    (resetRetryDelays_frame now _).2.2.2.2.2.trans hfr.2.2.2.2.2
  by_cases hre : ((outboxGetAll cfg.collections s.storage).filter
      (fun tx => !(filtered.any (fun f => f.id = tx.id)))).isEmpty = true
  · have hsf : loadPendingTransactions cfg now s =
        resetRetryDelays now
          (filtered.foldl (fun acc tx => schedule tx acc) s) := by
      rw [hload0, if_pos hre]
    have hrnil : (outboxGetAll cfg.collections s.storage).filter
        (fun tx => !(filtered.any (fun f => f.id = tx.id))) = [] :=
      List.isEmpty_iff.mp hre
    refine ⟨?_, ?_, ?_, ?_, ?_, ?_⟩
    · rw [hsf]
      exact hp2
    · intro u hu
      rw [hsf] at hu
      rcases List.mem_map.mp (hp2.mem_iff.mp hu) with ⟨x, _, rfl⟩
      rfl
    · intro t ht hne
      exfalso
      have hanyf : filtered.any (fun f => f.id = t.id) = false :=
        List.any_eq_false.mpr (fun f hf => by simp [hne f hf])
      have hmem : t ∈ (outboxGetAll cfg.collections s.storage).filter
          (fun tx => !(filtered.any (fun f => f.id = tx.id))) :=
        List.mem_filter.mpr ⟨ht, by rw [hanyf]; rfl⟩
      rw [hrnil] at hmem
      cases hmem
    · intro f _
      rw [hsf, hst2]
    · rw [hsf]
      exact hev2
    · intro hfe
      constructor
      · rw [hsf]
        apply List.Perm.eq_nil
        have h := hp2
        rw [hfe] at h ⊢
        simpa using h
      · intro hkeys hwf2 en hen
        rw [hsf, hst2] at hen
        cases hb : strStartsWith en.1 "tx:" with
        | false => rfl
        | true =>
            exfalso
            rcases hwf2 en hen hb with ⟨t, hdes, hkey⟩
            have htm : t ∈ outboxGetAll cfg.collections s.storage := by
              have hget : kvGet en.1 s.storage = some en.2 := by
                have : ((en.1, en.2) : String × Blob) ∈ s.storage := by
                  simpa using hen
                exact kvGet_of_mem_nodup hkeys this
              refine outboxGetAll_mem_iff.mpr
                ⟨en.1, List.mem_map.mpr ⟨en, hen, rfl⟩, hb, en.2, hget, hdes⟩
            have hremtxs : (outboxGetAll cfg.collections s.storage).filter
                (fun tx => !(filtered.any (fun f => f.id = tx.id))) =
                outboxGetAll cfg.collections s.storage := by
              rw [hfe]
              simp
            rw [hremtxs] at hrnil
            rw [hrnil] at htm
            cases htm
  · have hre2 : ((outboxGetAll cfg.collections s.storage).filter
        (fun tx => !(filtered.any (fun f => f.id = tx.id)))).isEmpty = false :=
      Bool.eq_false_iff.mpr hre
    have hsf : loadPendingTransactions cfg now s =
        { resetRetryDelays now
            (filtered.foldl (fun acc tx => schedule tx acc) s) with
          storage := outboxRemoveMany
            (((outboxGetAll cfg.collections s.storage).filter
              (fun tx => !(filtered.any (fun f => f.id = tx.id)))).map
                (fun tx => tx.id))
            (resetRetryDelays now
              (filtered.foldl (fun acc tx => schedule tx acc) s)).storage } := by
      rw [hload0, if_neg hre]
    refine ⟨?_, ?_, ?_, ?_, ?_, ?_⟩
    · rw [hsf]
      exact hp2
    · intro u hu
      rw [hsf] at hu
      rcases List.mem_map.mp (hp2.mem_iff.mp hu) with ⟨x, _, rfl⟩
      rfl
    · intro t ht hne
      have hanyf : filtered.any (fun f => f.id = t.id) = false :=
        List.any_eq_false.mpr (fun f hf => by simp [hne f hf])
      have hmem : t ∈ (outboxGetAll cfg.collections s.storage).filter
          (fun tx => !(filtered.any (fun f => f.id = tx.id))) :=
        List.mem_filter.mpr ⟨ht, by rw [hanyf]; rfl⟩
      rw [hsf]
      exact kvGet_outboxRemoveMany_mem (List.mem_map.mpr ⟨t, hmem, rfl⟩) _
    · intro f hf
      rw [hsf]
      have hne : ∀ i ∈ ((outboxGetAll cfg.collections s.storage).filter
          (fun tx => !(filtered.any (fun f => f.id = tx.id)))).map
            (fun tx => tx.id), txKey f.id ≠ txKey i := by
        intro i hi heq
        rcases List.mem_map.mp hi with ⟨t, htmem, rfl⟩
        rcases List.mem_filter.mp htmem with ⟨_, hb⟩
        have hanyf : filtered.any (fun g => g.id = t.id) = false := by
          simpa using hb
        have := (List.any_eq_false.mp hanyf) f hf
        simp only [decide_eq_true_eq] at this
        exact this (txKey_inj heq)
      rw [kvGet_outboxRemoveMany_not_mem hne, hst2]
    · rw [hsf]
      exact hev2
    · intro hfe
      constructor
      · rw [hsf]
        show (resetRetryDelays now
          (filtered.foldl (fun acc tx => schedule tx acc) s)).pending = []
        apply List.Perm.eq_nil
        have h := hp2
        rw [hfe] at h ⊢
        simpa using h
      · intro hkeys hwf2 en hen
        rw [hsf] at hen
        have hen2 := mem_outboxRemoveMany hen
        rcases hen2 with ⟨hen3, hnotin⟩
        rw [hst2] at hen3
        cases hb : strStartsWith en.1 "tx:" with
        | false => rfl
        | true =>
            exfalso
            rcases hwf2 en hen3 hb with ⟨t, hdes, hkey⟩
            have htm : t ∈ outboxGetAll cfg.collections s.storage := by
              have hget : kvGet en.1 s.storage = some en.2 := by
                have : ((en.1, en.2) : String × Blob) ∈ s.storage := by
                  simpa using hen3
                exact kvGet_of_mem_nodup hkeys this
              refine outboxGetAll_mem_iff.mpr
                ⟨en.1, List.mem_map.mpr ⟨en, hen3, rfl⟩, hb, en.2, hget, hdes⟩
            have hmemrem : t ∈ (outboxGetAll cfg.collections s.storage).filter
                (fun tx => !(filtered.any (fun f => f.id = tx.id))) := by
              rw [hfe]
              simpa using htm
            exact hnotin t.id (List.mem_map.mpr ⟨t, hmemrem, rfl⟩) hkey

/-- C6 witness: with a `beforeRetry` that returns the empty list, replay
leaves the scheduler empty and strips every envelope from a concrete
well-formed storage state. -/
theorem claim_C6_witness :
    (loadPendingTransactions c6wcfg 50 c6wstate).pending = [] ∧
    ∀ en ∈ (loadPendingTransactions c6wcfg 50 c6wstate).storage,
      strStartsWith en.1 "tx:" = false := by
  have h := claim_C6 c6wcfg 50 c6wstate [] rfl rfl (by decide)
  have h2 := h.2.2.2.2.2 rfl
  refine ⟨h2.1, h2.2 (by decide) ?_⟩
  intro en hen _
  rcases List.mem_singleton.mp hen with rfl
  exact ⟨c6wtx, rfl, rfl⟩
